import Mathlib

/-!
Verification of the zipline-reloaded bundle/auxiliary-store specification.

The development shallowly embeds the data model and operations of the
bundle ingestion/storage/adjustment engine and the auxiliary flexible-schema
data store, and proves the spec's testable properties about them.

Dates are encoded as natural numbers in `yyyymmdd` form (so the usual order
on dates is the order on naturals).  Prices are rationals; volumes are
naturals.
-/

/-! ## Adjustments (corporate actions) -/

/-- The three adjustment kinds of `zipline.lib.adjustment`:
`MULTIPLY`, `ADD`, `OVERWRITE`. -/
inductive AdjKind where
  | multiply : AdjKind
  | add : AdjKind
  | overwrite : AdjKind
deriving DecidableEq

/-- Modelled from the spec: an Adjustment record
`{asset_id, kind, value, apply_date}`; it must be applied to all bars with
`session < apply_date` when a caller requests data as of a date at or after
`apply_date` (spec section 3; the underlying `zipline.lib.adjustment`
implementation is not present under the source tree). -/
structure Adjustment where
  sid : ℕ
  kind : AdjKind
  value : ℚ
  applyDate : ℕ
deriving DecidableEq

/-- Numeric index of an adjustment kind, used for deterministic tie-breaking. -/
def kindNat : AdjKind → ℕ
  | .multiply => 0
  | .add => 1
  | .overwrite => 2

/-- The effect of one adjustment kind on a stored value. -/
def applyKind : AdjKind → ℚ → ℚ → ℚ
  | .multiply, v, x => x * v
  | .add, v, x => x + v
  | .overwrite, v, _ => v

/-- Deterministic ordering of adjustments: ascending `apply_date` first
(spec section 4.4), with a fixed tie-break on the remaining fields so that
the composed result is independent of insertion order. -/
def adjLE (a b : Adjustment) : Prop :=
  a.applyDate < b.applyDate ∨
    (a.applyDate = b.applyDate ∧ (a.sid < b.sid ∨
      (a.sid = b.sid ∧ (kindNat a.kind < kindNat b.kind ∨
        (kindNat a.kind = kindNat b.kind ∧ a.value ≤ b.value)))))

instance adjLE.decidableRel : DecidableRel adjLE := fun a b => by
  unfold adjLE; infer_instance

/-- The lexicographic key realising `adjLE`. -/
def adjKey (a : Adjustment) : ℕ ×ₗ (ℕ ×ₗ (ℕ ×ₗ ℚ)) :=
  toLex (a.applyDate, toLex (a.sid, toLex (kindNat a.kind, a.value)))

theorem adjLE_iff_key (a b : Adjustment) : adjLE a b ↔ adjKey a ≤ adjKey b := by
  simp [adjLE, adjKey, Prod.Lex.le_iff]

theorem kindNat_injective : Function.Injective kindNat := by
  intro x y h
  cases x <;> cases y <;> simp [kindNat] at h ⊢

theorem adjKey_injective : Function.Injective adjKey := by
  intro a b h
  unfold adjKey at h
  have h' := congrArg ofLex h
  simp only [ofLex_toLex, Prod.mk.injEq] at h'
  obtain ⟨h1, h2⟩ := h'
  have h'' := congrArg ofLex h2
  simp only [ofLex_toLex, Prod.mk.injEq] at h''
  obtain ⟨h3, h4⟩ := h''
  have h''' := congrArg ofLex h4
  simp only [ofLex_toLex, Prod.mk.injEq] at h'''
  obtain ⟨h5, h6⟩ := h'''
  have h7 := kindNat_injective h5
  cases a; cases b
  simp_all

instance adjLE.isTotal : IsTotal Adjustment adjLE :=
  ⟨fun a b => by
    rw [adjLE_iff_key, adjLE_iff_key]
    exact le_total (adjKey a) (adjKey b)⟩

instance adjLE.isTrans : IsTrans Adjustment adjLE :=
  ⟨fun a b c hab hbc =>
    (adjLE_iff_key a c).mpr
      (le_trans ((adjLE_iff_key a b).mp hab) ((adjLE_iff_key b c).mp hbc))⟩

instance adjLE.isAntisymm : IsAntisymm Adjustment adjLE :=
  ⟨fun a b hab hba =>
    adjKey_injective
      (le_antisymm ((adjLE_iff_key a b).mp hab) ((adjLE_iff_key b a).mp hba))⟩

theorem adjLE.applyDate_le {a b : Adjustment} (h : adjLE a b) :
    a.applyDate ≤ b.applyDate := by
  rcases h with h | ⟨h, _⟩
  · exact Nat.le_of_lt h
  · exact Nat.le_of_eq h

/-- The adjustments of `adjs` registered for `asset` that are visible as of
`asOf`: point-in-time filtering keeps exactly those with
`apply_date ≤ as_of_date` (spec section 4.4). -/
def visibleAdj (adjs : List Adjustment) (asset asOf : ℕ) : List Adjustment :=
  adjs.filter fun b => b.sid == asset && decide (b.applyDate ≤ asOf)

/-- The adjustment-table lookup: visible adjustments sorted in ascending
`apply_date` order (spec section 4.4), with a deterministic tie-break. -/
def lookupAdj (adjs : List Adjustment) (asset asOf : ℕ) : List Adjustment :=
  List.insertionSort adjLE (visibleAdj adjs asset asOf)

/-- The effect of one visible adjustment on the value stored for session
`s`: it rewrites the value only for sessions strictly before its
`apply_date` (spec section 3). -/
def effectOn (s : ℕ) (a : Adjustment) (x : ℚ) : ℚ :=
  if s < a.applyDate then applyKind a.kind a.value x else x

/-- Apply a sequence of adjustments, in order, to the value stored for
session `s`. -/
def applySeq (l : List Adjustment) (s : ℕ) (x : ℚ) : ℚ :=
  l.foldl (fun x a => effectOn s a x) x

/-! ## Bar store reads -/

/-- A stored close price: one row of the bar store, keyed by
(asset id, session). -/
structure PriceBar where
  sid : ℕ
  session : ℕ
  close : ℚ
deriving DecidableEq

/-- Modelled from the spec: `readBars` for a single (asset, session) key
returns the stored close with the adjustment-table lookup for
`as_of_date` applied per spec section 4.4 (the reader implementation is
not present under the source tree). -/
def readBars (bars : List PriceBar) (adjs : List Adjustment)
    (asset session asOf : ℕ) : Option ℚ :=
  (bars.find? fun b => b.sid == asset && b.session == session).map
    fun b => applySeq (lookupAdj adjs asset asOf) session b.close

/-- The committed ingestion of the spec's scenario: symbol AAPL (asset id 1)
over sessions 2022-01-03 .. 2022-01-07 with raw close 180.0 on 2022-01-04. -/
def aaplBars : List PriceBar :=
  [⟨1, 20220103, 182⟩, ⟨1, 20220104, 180⟩, ⟨1, 20220105, 90⟩,
   ⟨1, 20220106, 91⟩, ⟨1, 20220107, 92⟩]

/-- The 2-for-1 split of the spec's scenario, applying on 2022-01-05. -/
def aaplSplit : Adjustment := ⟨1, .multiply, 1/2, 20220105⟩

/-! ## List infrastructure for the point-in-time law -/

theorem orderedInsert_append_last {α : Type} (r : α → α → Prop) [DecidableRel r]
    (p a : α) (M : List α) (h : r p a) :
    List.orderedInsert r p (M ++ [a]) = List.orderedInsert r p M ++ [a] := by
  induction M with
  | nil => simp [List.orderedInsert, h]
  | cons m M ih =>
      simp only [List.cons_append, List.orderedInsert]
      by_cases hm : r p m
      · simp [hm]
      · simp [hm, ih]

theorem orderedInsert_of_max {α : Type} (r : α → α → Prop) [DecidableRel r]
    (a : α) (M : List α) (h : ∀ b ∈ M, ¬ r a b) :
    List.orderedInsert r a M = M ++ [a] := by
  induction M with
  | nil => simp
  | cons m M ih =>
      have hm : ¬ r a m := h m (List.mem_cons_self m M)
      simp only [List.orderedInsert, if_neg hm]
      rw [ih fun b hb => h b (List.mem_cons_of_mem m hb)]
      simp

theorem insertionSort_append_max {α : Type} (r : α → α → Prop) [DecidableRel r]
    (a : α) (P Q : List α)
    (h : ∀ b ∈ P ++ Q, r b a ∧ ¬ r a b) :
    List.insertionSort r (P ++ a :: Q) =
      List.insertionSort r (P ++ Q) ++ [a] := by
  induction P with
  | nil =>
      simp only [List.nil_append, List.insertionSort]
      apply orderedInsert_of_max
      intro b hb
      have hb' : b ∈ List.insertionSort r Q := hb
      have : b ∈ Q := (List.perm_insertionSort r Q).mem_iff.mp hb'
      exact (h b (by simpa using this)).2
  | cons p P ih =>
      have e1 : ((p :: P) ++ a :: Q) = p :: (P ++ a :: Q) := rfl
      have e2 : ((p :: P) ++ Q) = p :: (P ++ Q) := rfl
      have hpa : r p a := (h p (by simp)).1
      rw [e1, e2, List.insertionSort, List.insertionSort,
        ih fun b hb => h b (List.mem_cons_of_mem p hb),
        orderedInsert_append_last r p a _ hpa]

theorem filter_split {α : Type} (p₁ p₂ q : α → Bool) (a : α)
    (hpq : ∀ x, p₂ x = (p₁ x || q x)) (hdisj : ∀ x, ¬(p₁ x = true ∧ q x = true)) :
    ∀ l : List α, l.filter q = [a] →
      ∃ P Q, l.filter p₂ = P ++ a :: Q ∧ l.filter p₁ = P ++ Q ∧
        (∀ b ∈ P, p₁ b = true) ∧ (∀ b ∈ Q, p₁ b = true) := by
  intro l
  induction l with
  | nil => intro h; simp at h
  | cons x t ih =>
      intro h
      by_cases hq : q x = true
      · rw [List.filter_cons_of_pos hq] at h
        have hxa : x = a := by
          have := List.head_eq_of_cons_eq h
          exact this
        have ht : t.filter q = [] := List.tail_eq_of_cons_eq h
        have hqt : ∀ b ∈ t, q b = false := by
          intro b hb
          have := List.filter_eq_nil_iff.mp ht b hb
          simpa using this
        have hp1x : p₁ x = false := by
          by_contra hcon
          exact hdisj x ⟨by simpa using hcon, hq⟩
        have hp2x : p₂ x = true := by rw [hpq]; simp [hq]
        refine ⟨[], t.filter p₁, ?_, ?_, by simp, ?_⟩
        · rw [List.filter_cons_of_pos hp2x, hxa]
          simp only [List.nil_append, List.cons.injEq, true_and]
          apply List.filter_congr
          intro b hb
          rw [hpq, hqt b hb]
          simp
        · rw [List.filter_cons_of_neg (by simp [hp1x])]
          simp
        · intro b hb
          exact List.of_mem_filter hb
      · have hq' : q x = false := by simpa using hq
        rw [List.filter_cons_of_neg (by simp [hq'])] at h
        obtain ⟨P, Q, h2, h1, hP, hQ⟩ := ih h
        by_cases hp1 : p₁ x = true
        · have hp2 : p₂ x = true := by rw [hpq]; simp [hp1]
          refine ⟨x :: P, Q, ?_, ?_, ?_, hQ⟩
          · rw [List.filter_cons_of_pos hp2, h2]; simp
          · rw [List.filter_cons_of_pos hp1, h1]; simp
          · intro b hb
            rcases List.mem_cons.mp hb with hb | hb
            · subst hb; exact hp1
            · exact hP b hb
        · have hp1' : p₁ x = false := by simpa using hp1
          have hp2 : p₂ x = false := by rw [hpq]; simp [hp1', hq']
          refine ⟨P, Q, ?_, ?_, hP, hQ⟩
          · rw [List.filter_cons_of_neg (by simp [hp2]), h2]
          · rw [List.filter_cons_of_neg (by simp [hp1']), h1]

theorem applySeq_append (L M : List Adjustment) (s : ℕ) (x : ℚ) :
    applySeq (L ++ M) s x = applySeq M s (applySeq L s x) := by
  simp [applySeq, List.foldl_append]

/-- The point-in-time lookup decomposition: if `a` is the only registered
adjustment for `asset` whose apply date lies in the window `(D1, D2]`, then
the lookup as of `D2` is the lookup as of `D1` with `a` appended. -/
theorem lookupAdj_snoc (adjs : List Adjustment) (asset : ℕ) (a : Adjustment)
    (D1 D2 : ℕ)
    (honly : adjs.filter
        (fun b => b.sid == asset && decide (D1 < b.applyDate) &&
          decide (b.applyDate ≤ D2)) = [a]) :
    lookupAdj adjs asset D2 = lookupAdj adjs asset D1 ++ [a] ∧
      D1 < a.applyDate ∧ a.applyDate ≤ D2 ∧ a.sid = asset := by
  have ha : a ∈ adjs.filter
      (fun b => b.sid == asset && decide (D1 < b.applyDate) &&
        decide (b.applyDate ≤ D2)) := by
    rw [honly]; exact List.mem_singleton_self a
  have haprops := List.of_mem_filter ha
  simp only [Bool.and_eq_true, beq_iff_eq, decide_eq_true_eq] at haprops
  obtain ⟨⟨hasid, haD1⟩, haD2⟩ := haprops
  have hsplit := filter_split
    (fun b => b.sid == asset && decide (b.applyDate ≤ D1))
    (fun b => b.sid == asset && decide (b.applyDate ≤ D2))
    (fun b => b.sid == asset && decide (D1 < b.applyDate) &&
      decide (b.applyDate ≤ D2)) a
    (by
      intro x
      by_cases hs : x.sid = asset
      · have hbeq : (x.sid == asset) = true := by simp [hs]
        have hdec : (decide (x.applyDate ≤ D2) : Bool) =
            (decide (x.applyDate ≤ D1) ||
              (decide (D1 < x.applyDate) && decide (x.applyDate ≤ D2))) := by
          by_cases h1 : x.applyDate ≤ D1
          · have h2 : x.applyDate ≤ D2 := by omega
            simp [h1, h2]
          · simp [h1, show D1 < x.applyDate by omega]
        simp only [hbeq, Bool.true_and]
        exact hdec
      · have hbeq : (x.sid == asset) = false := by simp [hs]
        simp [hbeq])
    (by
      intro x
      simp only [Bool.and_eq_true, beq_iff_eq, decide_eq_true_eq, not_and]
      intro h1 h2
      omega)
    adjs honly
  obtain ⟨P, Q, h2, h1, hP, hQ⟩ := hsplit
  have hsort := insertionSort_append_max adjLE a P Q (by
    intro b hb
    have hb' : b.applyDate ≤ D1 := by
      have : b ∈ P ∨ b ∈ Q := List.mem_append.mp hb
      rcases this with hbP | hbQ
      · have := hP b hbP
        simp only [Bool.and_eq_true, decide_eq_true_eq] at this
        exact this.2
      · have := hQ b hbQ
        simp only [Bool.and_eq_true, decide_eq_true_eq] at this
        exact this.2
    constructor
    · exact Or.inl (by omega)
    · intro hcon
      have := adjLE.applyDate_le hcon
      omega)
  refine ⟨?_, haD1, haD2, hasid⟩
  unfold lookupAdj visibleAdj
  rw [h2, h1, hsort]

/-- C1: for the committed scenario ingestion (raw close 180.0 on session
2022-01-04, 2-for-1 split applying 2022-01-05), `readBars` as of 2022-01-03
returns the unadjusted close 180 while as of 2022-01-10 it returns the
adjusted close 90; and in general, whenever `a` is the only registered
adjustment for the asset whose apply date lies in the window `(D1, D2]`,
the reads as of `D1` and `D2` differ exactly by `a`'s effect on sessions
before `a.applyDate` and are identical on sessions on or after it. -/
theorem C1_point_in_time_law
    (bars : List PriceBar) (adjs : List Adjustment) (asset : ℕ) (a : Adjustment)
    (D1 D2 : ℕ)
    (honly : adjs.filter
        (fun b => b.sid == asset && decide (D1 < b.applyDate) &&
          decide (b.applyDate ≤ D2)) = [a]) :
    (readBars aaplBars [aaplSplit] 1 20220104 20220103 = some 180 ∧
      readBars aaplBars [aaplSplit] 1 20220104 20220110 = some 90) ∧
    (∀ s, s < a.applyDate →
      readBars bars adjs asset s D2 =
        (readBars bars adjs asset s D1).map (applyKind a.kind a.value)) ∧
    (∀ s, a.applyDate ≤ s →
      readBars bars adjs asset s D2 = readBars bars adjs asset s D1) := by
  obtain ⟨hsnoc, hD1, hD2, hsid⟩ := lookupAdj_snoc adjs asset a D1 D2 honly
  refine ⟨⟨?_, ?_⟩, ?_, ?_⟩
  · simp [readBars, aaplBars, aaplSplit, lookupAdj, visibleAdj, applySeq, effectOn,
      applyKind, List.insertionSort, List.orderedInsert, List.find?, List.filter]
  · simp [readBars, aaplBars, aaplSplit, lookupAdj, visibleAdj, applySeq, effectOn,
      applyKind, List.insertionSort, List.orderedInsert, List.find?, List.filter]
    norm_num
  · intro s hs
    unfold readBars
    rw [hsnoc]
    cases hfind : bars.find? fun b => b.sid == asset && b.session == s with
    | none => simp
    | some b =>
        simp only [Option.map_some']
        rw [applySeq_append]
        simp [applySeq, effectOn, hs]
  · intro s hs
    unfold readBars
    rw [hsnoc]
    cases hfind : bars.find? fun b => b.sid == asset && b.session == s with
    | none => simp
    | some b =>
        simp only [Option.map_some']
        rw [applySeq_append]
        simp [applySeq, effectOn, Nat.not_lt.mpr hs]

theorem C1_point_in_time_law_witness :
    readBars aaplBars [aaplSplit] 1 20220104 20220103 = some 180 ∧
    readBars aaplBars [aaplSplit] 1 20220104 20220110 = some 90 :=
  (C1_point_in_time_law aaplBars [aaplSplit] 1 aaplSplit 20220103 20220110 rfl).1

/-- A multiply adjustment used to exercise the composition laws. -/
def demoMul1 : Adjustment := ⟨1, .multiply, 2, 10⟩

/-- A second multiply adjustment used to exercise the composition laws. -/
def demoMul2 : Adjustment := ⟨1, .multiply, 3, 20⟩

/-- An add adjustment used to exercise the composition laws. -/
def demoAdd : Adjustment := ⟨1, .add, 5, 15⟩

/-- An overwrite adjustment used to exercise the composition laws. -/
def demoOver : Adjustment := ⟨1, .overwrite, 7, 30⟩

/-- C2: the adjustment-table lookup is sorted in ascending apply-date order;
multiply-kind adjustments covering the same session compose by
multiplication of their factors (not addition); an overwrite-kind
adjustment discards the effect of every earlier adjustment (and of the raw
value) on the sessions it covers; and the lookup result — hence the
composed read — is the same for every insertion order of the registered
adjustments. -/
theorem C2_adjustment_composition :
    (∀ (adjs : List Adjustment) (asset d : ℕ),
      (lookupAdj adjs asset d).Sorted fun x y => x.applyDate ≤ y.applyDate) ∧
    (∀ (l : List Adjustment) (s : ℕ) (x : ℚ),
      (∀ a ∈ l, a.kind = AdjKind.multiply ∧ s < a.applyDate) →
      applySeq l s x = x * (l.map Adjustment.value).prod) ∧
    (∀ (L M : List Adjustment) (ov : Adjustment) (s : ℕ) (x y : ℚ),
      ov.kind = AdjKind.overwrite → s < ov.applyDate →
      applySeq (L ++ ov :: M) s x = applySeq (ov :: M) s y) ∧
    (∀ (adjs1 adjs2 : List Adjustment) (asset d : ℕ),
      List.Perm adjs1 adjs2 →
      lookupAdj adjs1 asset d = lookupAdj adjs2 asset d) := by
  refine ⟨?_, ?_, ?_, ?_⟩
  · intro adjs asset d
    exact (List.sorted_insertionSort adjLE (visibleAdj adjs asset d)).imp
      fun h => adjLE.applyDate_le h
  · intro l
    induction l with
    | nil => intro s x _; simp [applySeq]
    | cons a t ih =>
        intro s x h
        obtain ⟨hk, hs⟩ := h a (List.mem_cons_self a t)
        have hstep : applySeq (a :: t) s x = applySeq t s (x * a.value) := by
          simp [applySeq, effectOn, hs, hk, applyKind]
        rw [hstep, ih s (x * a.value) fun b hb => h b (List.mem_cons_of_mem a hb)]
        simp [mul_assoc]
  · intro L M ov s x y hk hs
    rw [applySeq_append]
    have hov : ∀ z : ℚ, applySeq (ov :: M) s z = applySeq M s ov.value := by
      intro z
      simp [applySeq, effectOn, hs, hk, applyKind]
    rw [hov, hov]
  · intro adjs1 adjs2 asset d hperm
    have hvis : List.Perm (visibleAdj adjs1 asset d) (visibleAdj adjs2 asset d) :=
      hperm.filter _
    have hp : List.Perm (lookupAdj adjs1 asset d) (lookupAdj adjs2 asset d) :=
      ((List.perm_insertionSort adjLE _).trans hvis).trans
        (List.perm_insertionSort adjLE _).symm
    exact List.eq_of_perm_of_sorted hp
      (List.sorted_insertionSort adjLE _) (List.sorted_insertionSort adjLE _)

theorem C2_adjustment_composition_witness :
    ((lookupAdj [demoOver, demoMul1, demoAdd] 1 100).Sorted
      fun x y => x.applyDate ≤ y.applyDate) ∧
    applySeq [demoMul1, demoMul2] 5 10 =
      10 * (([demoMul1, demoMul2].map Adjustment.value).prod) ∧
    applySeq ([demoMul1] ++ demoOver :: [demoMul2]) 5 10 =
      applySeq (demoOver :: [demoMul2]) 5 999 ∧
    lookupAdj [demoMul1, demoAdd] 1 100 = lookupAdj [demoAdd, demoMul1] 1 100 :=
  ⟨C2_adjustment_composition.1 [demoOver, demoMul1, demoAdd] 1 100,
    C2_adjustment_composition.2.1 [demoMul1, demoMul2] 5 10 (by decide),
    C2_adjustment_composition.2.2.1 [demoMul1] [demoMul2] demoOver 5 10 999
      (by decide) (by decide),
    C2_adjustment_composition.2.2.2 [demoMul1, demoAdd] [demoAdd, demoMul1] 1 100
      (List.Perm.swap demoAdd demoMul1 [])⟩

/-! ## Bar storage encoding (bcolz layer) -/

/-- Modelled from the spec: the bcolz storage layer keeps OHLC prices as
unsigned 32-bit integers produced by a fixed 1000x scaling factor
(`ZIPLINE_MODERNIZATION_REPORT.md`: "uint32 scaling factors add complexity
and precision loss"); a price is scaled, rounded to the nearest integer and
truncated to 32 bits.  The writer implementation itself is not present
under the source tree. -/
def encodePrice (p : ℚ) : ℕ := (⌊p * 1000 + 1/2⌋).toNat % 2 ^ 32

/-- Reading a stored price divides the scaled integer back out. -/
def decodePrice (n : ℕ) : ℚ := (n : ℚ) / 1000

/-- An OHLCV bar as handed to the writer. -/
structure RawBar where
  op : ℚ
  hi : ℚ
  lo : ℚ
  cl : ℚ
  vol : ℕ
deriving DecidableEq

/-- An OHLCV bar as stored on disk (uint32 fields). -/
structure StoredBar where
  op : ℕ
  hi : ℕ
  lo : ℕ
  cl : ℕ
  vol : ℕ
deriving DecidableEq

/-- Writing a bar to the bcolz store. -/
def encodeBar (b : RawBar) : StoredBar :=
  ⟨encodePrice b.op, encodePrice b.hi, encodePrice b.lo, encodePrice b.cl,
    b.vol % 2 ^ 32⟩

/-- Reading a bar back from the bcolz store. -/
def decodeBar (s : StoredBar) : RawBar :=
  ⟨decodePrice s.op, decodePrice s.hi, decodePrice s.lo, decodePrice s.cl,
    s.vol⟩

/-- A price that the scaled uint32 encoding represents exactly: a
non-negative multiple of 0.001 whose scaled value fits in 32 bits. -/
def representablePrice (p : ℚ) : Prop :=
  ∃ k : ℕ, k < 2 ^ 32 ∧ p = (k : ℚ) / 1000

theorem decode_encode_price (p : ℚ) (hp : representablePrice p) :
    decodePrice (encodePrice p) = p := by
  obtain ⟨k, hk, rfl⟩ := hp
  unfold encodePrice decodePrice
  have h1 : (k : ℚ) / 1000 * 1000 + 1/2 = (k : ℚ) + 1/2 := by
    field_simp
  rw [h1]
  have h2 : ⌊(k : ℚ) + 1/2⌋ = (k : ℤ) := by
    rw [Int.floor_eq_iff]
    constructor
    · push_cast
      linarith
    · push_cast
      linarith
  rw [h2]
  have h3 : ((k : ℤ)).toNat = k := by simp
  rw [h3, Nat.mod_eq_of_lt hk]

/-- C3 counterexample: the round-trip through the scaled uint32 encoding is
not lossless — a bar whose prices are 0.0001 decodes to a different bar
(the price comes back as 0). -/
theorem C3_roundtrip_counterexample :
    decodeBar (encodeBar ⟨1/10000, 1/10000, 1/10000, 1/10000, 100⟩) ≠
      ⟨1/10000, 1/10000, 1/10000, 1/10000, 100⟩ := by
  intro h
  have hcl := congrArg RawBar.cl h
  have hfloor : ⌊(1/10000 : ℚ) * 1000 + 1/2⌋ = 0 := by norm_num
  simp only [decodeBar, encodeBar, decodePrice, encodePrice, hfloor] at hcl
  norm_num at hcl

/-- C3 (amended): the round-trip through the bar store is exact precisely on
the encoding's representable grid — for every bar whose four prices are
non-negative multiples of 0.001 with scaled value below `2^32` and whose
volume is below `2^32`, reading back the written bar yields the values that
were written; outside that grid the uint32 scaling loses precision. -/
theorem C3_roundtrip_amended (b : RawBar)
    (ho : representablePrice b.op) (hh : representablePrice b.hi)
    (hl : representablePrice b.lo) (hc : representablePrice b.cl)
    (hv : b.vol < 2 ^ 32) :
    decodeBar (encodeBar b) = b := by
  obtain ⟨o, hi, lo, c, v⟩ := b
  simp only [encodeBar, decodeBar] at ho hh hl hc hv ⊢
  rw [decode_encode_price _ ho, decode_encode_price _ hh,
    decode_encode_price _ hl, decode_encode_price _ hc, Nat.mod_eq_of_lt hv]

/-- A concrete bar on the representable grid (prices 180.0, 181.0, 179.0,
180.0 and volume 1000). -/
def demoRawBar : RawBar :=
  ⟨((180000 : ℕ) : ℚ) / 1000, ((181000 : ℕ) : ℚ) / 1000,
   ((179000 : ℕ) : ℚ) / 1000, ((180000 : ℕ) : ℚ) / 1000, 1000⟩

theorem C3_roundtrip_amended_witness :
    decodeBar (encodeBar demoRawBar) = demoRawBar :=
  C3_roundtrip_amended demoRawBar ⟨180000, by decide, rfl⟩
    ⟨181000, by decide, rfl⟩ ⟨179000, by decide, rfl⟩ ⟨180000, by decide, rfl⟩
    (by decide)

/-! ## Discontinued-provider source adapter (nasdaq WIKI dataset) -/

/-- Source-adapter error taxonomy (spec section 4.1). -/
inductive SourceError where
  | sourceUnavailable : SourceError
  | sourceExhausted : SourceError
  | sourceDiscontinued : SourceError
deriving DecidableEq

/-- What a fetch against the discontinued WIKI dataset returns: the clamped
end date, the data sessions, and the discontinuation-warning annotation. -/
structure FetchOutcome where
  effectiveEnd : ℕ
  sessions : List ℕ
  warned : Bool
deriving DecidableEq

/-- The WIKI dataset's last good date, 2018-03-27. -/
def wikiLastGoodDate : ℕ := 20180327

/-- Modelled from the spec: the `nasdaq_bundle` WIKI adapter's automatic
date capping (`WIKI_DATASET_NOTICE.md`: a request past 2018-03-27 is
"automatically capped" to that date with a warning, instead of failing);
the adapter implementation itself is not present under the source tree.
`calendar` is the session sequence supplied by the calendar service. -/
def wikiFetch (calendar : List ℕ) (startD endD : ℕ) :
    Except SourceError FetchOutcome :=
  if startD ≤ wikiLastGoodDate then
    Except.ok
      ⟨min endD wikiLastGoodDate,
        calendar.filter fun s =>
          decide (startD ≤ s) && decide (s ≤ min endD wikiLastGoodDate),
        decide (wikiLastGoodDate < endD)⟩
  else Except.error SourceError.sourceDiscontinued

/-- C4: for every requested range starting on or before the WIKI dataset's
last good date 2018-03-27, the fetch succeeds (no error); the end date is
clamped to the last good date, every returned session is on or before it,
and requests extending past it get the discontinuation warning. -/
theorem C4_discontinued_capping (calendar : List ℕ) (startD endD : ℕ)
    (h : startD ≤ wikiLastGoodDate) :
    ∃ out : FetchOutcome,
      wikiFetch calendar startD endD = Except.ok out ∧
      out.effectiveEnd = min endD wikiLastGoodDate ∧
      out.warned = decide (wikiLastGoodDate < endD) ∧
      (∀ s ∈ out.sessions, s ≤ wikiLastGoodDate) ∧
      (wikiLastGoodDate < endD →
        out.effectiveEnd = wikiLastGoodDate ∧ out.warned = true) := by
  unfold wikiFetch
  rw [if_pos h]
  refine ⟨_, rfl, rfl, rfl, ?_, ?_⟩
  · intro s hs
    have hmem := List.of_mem_filter hs
    simp only [Bool.and_eq_true, decide_eq_true_eq] at hmem
    omega
  · intro hlt
    refine ⟨?_, by simp [hlt]⟩
    show min endD wikiLastGoodDate = wikiLastGoodDate
    omega

theorem C4_discontinued_capping_witness :
    ∃ out : FetchOutcome,
      wikiFetch [20180102, 20180327, 20200101] 20180101 20240101 =
        Except.ok out ∧
      out.effectiveEnd = min 20240101 wikiLastGoodDate ∧
      out.warned = decide (wikiLastGoodDate < 20240101) ∧
      (∀ s ∈ out.sessions, s ≤ wikiLastGoodDate) ∧
      (wikiLastGoodDate < 20240101 →
        out.effectiveEnd = wikiLastGoodDate ∧ out.warned = true) :=
  C4_discontinued_capping [20180102, 20180327, 20200101] 20180101 20240101
    (by decide)

/-! ## Auxiliary data store (CustomData database storage) -/

/-- Column types of a custom database
(`create_custom_db`: float, int, str, bool, datetime). -/
inductive ColType where
  | float : ColType
  | int : ColType
  | str : ColType
  | bool : ColType
  | datetime : ColType
deriving DecidableEq

/-- Lowercase ASCII letter, by code point. -/
def isLowerAZ (c : Char) : Bool := 97 ≤ c.toNat && c.toNat ≤ 122

/-- Uppercase ASCII letter, by code point. -/
def isUpperAZ (c : Char) : Bool := 65 ≤ c.toNat && c.toNat ≤ 90

/-- ASCII digit, by code point. -/
def isDigit09 (c : Char) : Bool := 48 ≤ c.toNat && c.toNat ≤ 57

/-- A character permitted in a database code: lowercase letter, digit or
hyphen. -/
def allowedCodeChar (c : Char) : Bool := isLowerAZ c || isDigit09 c || c == '-'

/-- Modelled from the spec: the database naming rules of the CustomData
storage guide — a valid code consists of lowercase letters, numbers and
hyphens and must start with a letter (no uppercase, no underscores); the
checking implementation itself is not present under the source tree. -/
def validCode (code : String) : Bool :=
  match code.data with
  | [] => false
  | c :: _ => isLowerAZ c && code.data.all allowedCodeChar

/-- One stored row of an auxiliary dataset, keyed by (date, asset id). -/
structure AuxRow where
  date : ℕ
  sid : ℕ
  value : ℚ
deriving DecidableEq

/-- An auxiliary dataset: its fixed column schema and its stored rows. -/
structure AuxDataset where
  columns : List (String × ColType)
  rows : List AuxRow
deriving DecidableEq

/-- The auxiliary store: datasets addressed by code. -/
abbrev AuxStore := List (String × AuxDataset)

/-- Look a dataset up by code. -/
def getDs (st : AuxStore) (code : String) : Option AuxDataset :=
  (st.find? fun p => p.1 == code).map Prod.snd

/-- Replace the dataset stored under `code`. -/
def setDs (st : AuxStore) (code : String) (ds : AuxDataset) : AuxStore :=
  st.map fun p => if p.1 == code then (p.1, ds) else p

/-- Auxiliary-store error taxonomy (spec sections 4.8 and 7). -/
inductive DBError where
  | duplicateKey : DBError
  | notFound : DBError
  | alreadyExists : DBError
  | invalidCode : DBError
deriving DecidableEq

/-- Two rows collide iff they share the (date, asset id) key. -/
def sameKey (r o : AuxRow) : Bool := r.date == o.date && r.sid == o.sid

/-- The insertion modes of `insert_custom_data`. -/
inductive InsertMode where
  | replace : InsertMode
  | append : InsertMode
  | update : InsertMode
deriving DecidableEq

/-- Modelled from the spec: the three insertion modes of the CustomData
storage guide — replace deletes all existing rows and stores the new ones,
append inserts only new records and fails if a key already exists, update
upserts; the implementation itself is not present under the source tree. -/
def insertRows : InsertMode → List AuxRow → List AuxRow → Except DBError (List AuxRow)
  | .replace, _, newRows => Except.ok newRows
  | .append, old, newRows =>
      if newRows.any (fun r => old.any fun o => sameKey r o) then
        Except.error DBError.duplicateKey
      else Except.ok (old ++ newRows)
  | .update, old, newRows =>
      Except.ok ((old.filter fun o => !(newRows.any fun r => sameKey r o)) ++ newRows)

/-- Modelled from the spec: `insert_custom_data(code, data, mode: str =
"replace")` per the guide's API reference — the mode parameter defaults to
replace.  The call returns the store after the insert together with the
error, if any; on error the store is returned unchanged (the insert is
atomic). -/
def insert_custom_data (st : AuxStore) (code : String) (newRows : List AuxRow)
    (mode : InsertMode := InsertMode.replace) : AuxStore × Option DBError :=
  match getDs st code with
  | none => (st, some DBError.notFound)
  | some ds =>
      match insertRows mode ds.rows newRows with
      | Except.error e => (st, some e)
      | Except.ok rows => (setDs st code ⟨ds.columns, rows⟩, none)

/-- Modelled from the spec: `create_custom_db(code, columns, ...)` per the
guide's API reference — it validates the code's naming rules, fails with
already-exists when the code is taken, and otherwise records the schema; it
takes no missing-value sentinels (its signature has none).  The
implementation itself is not present under the source tree. -/
def create_custom_db (st : AuxStore) (code : String)
    (columns : List (String × ColType)) : Except DBError AuxStore :=
  if validCode code = false then Except.error DBError.invalidCode
  else if (getDs st code).isSome then Except.error DBError.alreadyExists
  else Except.ok ((code, ⟨columns, []⟩) :: st)

/-- Error raised by the in-memory CustomData dataset builder. -/
inductive CustomDataError where
  | missingSentinel : CustomDataError
deriving DecidableEq

/-- Modelled from the spec: the in-memory `CustomData` dataset builder of
`WIKI_DATASET_NOTICE.md` — integer-typed columns must declare a
missing-value sentinel (NumPy has no native NaN for integers) and a
dataset declaring one without it raises; the implementation itself is not
present under the source tree. -/
def customDataBuild (columns : List (String × ColType))
    (missingValues : List (String × ℤ)) :
    Except CustomDataError (List (String × ColType)) :=
  if columns.any (fun c =>
      c.2 == ColType.int && !(missingValues.any fun m => m.1 == c.1)) then
    Except.error CustomDataError.missingSentinel
  else Except.ok columns

/-- A demo auxiliary dataset already holding a row keyed
(date 2023-01-01, asset 7). -/
def demoAuxDs : AuxDataset := ⟨[("metric", ColType.float)], [⟨20230101, 7, 5⟩]⟩

/-- A demo auxiliary store holding `demoAuxDs` under code `my-db`. -/
def demoAuxStore : AuxStore := [("my-db", demoAuxDs)]

/-- C5: in append mode, if any inserted row's (date, asset id) key already
exists in the dataset the insert fails with the duplicate-key error and
the store is returned exactly as it was (atomicity); if no key collides,
the dataset afterwards holds the old rows unchanged followed by all the
new rows. -/
theorem C5_append_mode_atomic (st : AuxStore) (code : String) (ds : AuxDataset)
    (newRows : List AuxRow) (hds : getDs st code = some ds) :
    ((∃ r ∈ newRows, ∃ o ∈ ds.rows, sameKey r o = true) →
      insert_custom_data st code newRows InsertMode.append =
        (st, some DBError.duplicateKey)) ∧
    ((∀ r ∈ newRows, ∀ o ∈ ds.rows, sameKey r o = false) →
      insert_custom_data st code newRows InsertMode.append =
        (setDs st code ⟨ds.columns, ds.rows ++ newRows⟩, none)) := by
  constructor
  · rintro ⟨r, hr, o, ho, hk⟩
    unfold insert_custom_data
    rw [hds]
    have hany : (newRows.any fun r => ds.rows.any fun o => sameKey r o) = true :=
      List.any_eq_true.mpr ⟨r, hr, List.any_eq_true.mpr ⟨o, ho, hk⟩⟩
    simp [insertRows, hany]
  · intro h
    unfold insert_custom_data
    rw [hds]
    have hany : (newRows.any fun r => ds.rows.any fun o => sameKey r o) = false := by
      rw [List.any_eq_false]
      intro r hr
      rw [Bool.not_eq_true, List.any_eq_false]
      intro o ho
      simp [h r hr o ho]
    simp [insertRows, hany]

theorem C5_append_mode_atomic_witness :
    insert_custom_data demoAuxStore "my-db" [⟨20230101, 7, 9⟩]
        InsertMode.append = (demoAuxStore, some DBError.duplicateKey) ∧
    insert_custom_data demoAuxStore "my-db" [⟨20230102, 7, 9⟩]
        InsertMode.append =
      (setDs demoAuxStore "my-db"
        ⟨demoAuxDs.columns, demoAuxDs.rows ++ [⟨20230102, 7, 9⟩]⟩, none) :=
  ⟨(C5_append_mode_atomic demoAuxStore "my-db" demoAuxDs [⟨20230101, 7, 9⟩]
      rfl).1
      ⟨⟨20230101, 7, 9⟩, List.mem_singleton_self _,
        ⟨20230101, 7, 5⟩, List.mem_singleton_self _, rfl⟩,
    (C5_append_mode_atomic demoAuxStore "my-db" demoAuxDs [⟨20230102, 7, 9⟩]
      rfl).2 (by decide)⟩

/-- C6 counterexample: the storage guide's own "database with all column
types" example — `create_custom_db` called with an integer-typed column
and no missing-value sentinel (its signature takes none) succeeds instead
of raising. -/
theorem C6_int_sentinel_counterexample :
    create_custom_db [] "comprehensive-data"
      [("price", ColType.float), ("volume", ColType.int),
       ("ticker", ColType.str), ("is_active", ColType.bool),
       ("timestamp", ColType.datetime)] =
    Except.ok [("comprehensive-data",
      ⟨[("price", ColType.float), ("volume", ColType.int),
        ("ticker", ColType.str), ("is_active", ColType.bool),
        ("timestamp", ColType.datetime)], []⟩)] := by
  rfl

/-- C6 (amended): it is the in-memory CustomData dataset builder — not the
database create operation, whose signature takes no sentinels — that
rejects an integer-typed column lacking a declared missing-value sentinel
at build time, before any insert; it succeeds when every integer-typed
column declares one. -/
theorem C6_int_sentinel_amended (columns : List (String × ColType))
    (missingValues : List (String × ℤ)) :
    ((∃ n, (n, ColType.int) ∈ columns ∧ ∀ m ∈ missingValues, m.1 ≠ n) →
      customDataBuild columns missingValues =
        Except.error CustomDataError.missingSentinel) ∧
    ((∀ n, (n, ColType.int) ∈ columns → ∃ m ∈ missingValues, m.1 = n) →
      customDataBuild columns missingValues = Except.ok columns) := by
  constructor
  · rintro ⟨n, hmem, hno⟩
    unfold customDataBuild
    have hany : (columns.any fun c =>
        c.2 == ColType.int && !(missingValues.any fun m => m.1 == c.1)) = true := by
      refine List.any_eq_true.mpr ⟨(n, ColType.int), hmem, ?_⟩
      rw [Bool.and_eq_true]
      refine ⟨rfl, ?_⟩
      rw [Bool.not_eq_true', List.any_eq_false]
      intro m hm
      simp [hno m hm]
    simp [hany]
  · intro h
    unfold customDataBuild
    have hany : (columns.any fun c =>
        c.2 == ColType.int && !(missingValues.any fun m => m.1 == c.1)) = false := by
      rw [List.any_eq_false]
      intro c hc
      by_cases hint : c.2 = ColType.int
      · obtain ⟨m, hm, hmn⟩ := h c.1 (by
          have hceq : c = (c.1, ColType.int) := by
            rw [← hint]
          rw [← hceq]
          exact hc)
        have hany2 : (missingValues.any fun m => m.1 == c.1) = true :=
          List.any_eq_true.mpr ⟨m, hm, by simp [hmn]⟩
        simp [hint, hany2]
      · simp [hint]
    simp [hany]

theorem C6_int_sentinel_amended_witness :
    customDataBuild [("sector", ColType.int)] [] =
      Except.error CustomDataError.missingSentinel ∧
    customDataBuild [("sector", ColType.int)] [("sector", -1)] =
      Except.ok [("sector", ColType.int)] :=
  ⟨(C6_int_sentinel_amended [("sector", ColType.int)] []).1
      ⟨"sector", List.mem_singleton_self _, by simp⟩,
    (C6_int_sentinel_amended [("sector", ColType.int)] [("sector", -1)]).2
      (by
        intro n hn
        simp only [List.mem_singleton, Prod.mk.injEq] at hn
        exact ⟨("sector", -1), List.mem_singleton_self _, hn.1.symm⟩)⟩

/-- C9: an `insert_custom_data` call that omits the mode argument uses the
signature's default, replace — it behaves exactly like an explicit
replace-mode insert, so the dataset afterwards holds exactly the new rows
and every previously stored row is gone. -/
theorem C9_default_mode_is_replace (st : AuxStore) (code : String)
    (ds : AuxDataset) (newRows : List AuxRow) (hds : getDs st code = some ds) :
    insert_custom_data st code newRows =
      (setDs st code ⟨ds.columns, newRows⟩, none) ∧
    insert_custom_data st code newRows =
      insert_custom_data st code newRows InsertMode.replace := by
  unfold insert_custom_data
  rw [hds]
  exact ⟨rfl, rfl⟩

theorem C9_default_mode_is_replace_witness :
    insert_custom_data demoAuxStore "my-db" [⟨20230102, 8, 3⟩] =
      (setDs demoAuxStore "my-db" ⟨demoAuxDs.columns, [⟨20230102, 8, 3⟩]⟩,
        none) :=
  (C9_default_mode_is_replace demoAuxStore "my-db" demoAuxDs
    [⟨20230102, 8, 3⟩] rfl).1

/-- C10: a database code is valid only if it consists of lowercase
letters, digits and hyphens and starts with a letter; every code
containing an uppercase letter or an underscore, and every code starting
with a digit, is rejected by the create operation with the invalid-code
error. -/
theorem C10_code_naming_rules (st : AuxStore) (code : String)
    (columns : List (String × ColType)) :
    (validCode code = true →
      (∀ c ∈ code.data, allowedCodeChar c = true) ∧
      ∀ c l, code.data = c :: l → isLowerAZ c = true) ∧
    ((∃ c ∈ code.data, isUpperAZ c = true ∨ c = '_') →
      create_custom_db st code columns = Except.error DBError.invalidCode) ∧
    (∀ c l, code.data = c :: l → isDigit09 c = true →
      create_custom_db st code columns = Except.error DBError.invalidCode) := by
  have hbadchar : ∀ c : Char, (isUpperAZ c = true ∨ c = '_') →
      allowedCodeChar c = false := by
    intro c hc
    have htoNat : 65 ≤ c.toNat ∧ c.toNat ≤ 90 ∨ c.toNat = 95 := by
      rcases hc with hc | hc
      · simp only [isUpperAZ, Bool.and_eq_true, decide_eq_true_eq] at hc
        exact Or.inl hc
      · subst hc
        exact Or.inr rfl
    rw [Bool.eq_false_iff]
    intro hallow
    simp only [allowedCodeChar, isLowerAZ, isDigit09, Bool.or_eq_true,
      Bool.and_eq_true, decide_eq_true_eq, beq_iff_eq] at hallow
    rcases hallow with (⟨h1, h2⟩ | ⟨h1, h2⟩) | h1
    · omega
    · omega
    · subst h1
      revert htoNat
      decide
  have hinvalid : ∀ hv : validCode code = false,
      create_custom_db st code columns = Except.error DBError.invalidCode := by
    intro hv
    unfold create_custom_db
    rw [if_pos hv]
  have hcons : ∀ (c : Char) (l : List Char), code.data = c :: l →
      validCode code = (isLowerAZ c && (c :: l).all allowedCodeChar) := by
    intro c l hd
    unfold validCode
    rw [hd]
  refine ⟨?_, ?_, ?_⟩
  · intro hvalid
    cases hd : code.data with
    | nil =>
        exfalso
        unfold validCode at hvalid
        rw [hd] at hvalid
        simp at hvalid
    | cons c l =>
        rw [hcons c l hd, Bool.and_eq_true] at hvalid
        constructor
        · intro x hx
          exact List.all_eq_true.mp hvalid.2 x (hd ▸ hx)
        · intro c' l' hd'
          injection hd' with h1 h2
          rw [← h1]
          exact hvalid.1
  · rintro ⟨c, hc, hbad⟩
    apply hinvalid
    cases hd : code.data with
    | nil =>
        unfold validCode
        rw [hd]
    | cons c0 l0 =>
        rw [hcons c0 l0 hd, Bool.eq_false_iff]
        intro hcontra
        rw [Bool.and_eq_true] at hcontra
        obtain ⟨-, hall⟩ := hcontra
        have hmem := List.all_eq_true.mp hall c (hd ▸ hc)
        rw [hbadchar c hbad] at hmem
        exact Bool.false_ne_true hmem
  · intro c l hd hdigit
    apply hinvalid
    rw [hcons c l hd]
    have hlow : isLowerAZ c = false := by
      simp only [isDigit09, Bool.and_eq_true, decide_eq_true_eq] at hdigit
      rw [Bool.eq_false_iff]
      intro hcon
      simp only [isLowerAZ, Bool.and_eq_true, decide_eq_true_eq] at hcon
      omega
    rw [hlow]
    rfl

theorem C10_code_naming_rules_witness :
    create_custom_db [] "My-Data" [("metric", ColType.float)] =
      Except.error DBError.invalidCode ∧
    create_custom_db [] "my_data" [("metric", ColType.float)] =
      Except.error DBError.invalidCode ∧
    create_custom_db [] "123-data" [("metric", ColType.float)] =
      Except.error DBError.invalidCode ∧
    ((∀ c ∈ "my-data".data, allowedCodeChar c = true) ∧
      ∀ c l, "my-data".data = c :: l → isLowerAZ c = true) :=
  ⟨(C10_code_naming_rules [] "My-Data" [("metric", ColType.float)]).2.1
      ⟨'M', by decide, by decide⟩,
    (C10_code_naming_rules [] "my_data" [("metric", ColType.float)]).2.1
      ⟨'_', by decide, by decide⟩,
    (C10_code_naming_rules [] "123-data" [("metric", ColType.float)]).2.2
      '1' ['2', '3', '-', 'd', 'a', 't', 'a'] (by decide) (by decide),
    (C10_code_naming_rules [] "my-data" [("metric", ColType.float)]).1
      (by decide)⟩

/-! ## Bundle version retention -/

/-- One ingestion version of a bundle: its commit timestamp, whether the
ingestion reached the Committed state, and whether some reader currently
holds an open handle on it. -/
structure VersionInfo where
  stamp : ℕ
  committed : Bool
  inUse : Bool
deriving DecidableEq

/-- Modelled from the spec: `retain(bundle, keep_last_n)` (`zipline clean
--keep-last`) — walking the version list from most recent to oldest, it
keeps the `n` most recent Committed ingestions, deletes every other
version unless a reader holds an open handle on it (such versions are
skipped, not errored on), and deletes Failed ingestions; the
implementation itself is not present under the source tree.  The input
list is ordered most recent first. -/
def retain : ℕ → List VersionInfo → List VersionInfo
  | _, [] => []
  | n, v :: rest =>
      if v.committed then
        match n with
        | 0 => if v.inUse then v :: retain 0 rest else retain 0 rest
        | m + 1 => v :: retain m rest
      else if v.inUse then v :: retain n rest else retain n rest

/-- C7: retention is idempotent — running `retain` twice with the same
keep-count leaves exactly the surviving version set of a single run — and
`retain` never deletes a version that is among the `n` most recent
Committed ingestions. -/
theorem C7_retain_idempotent :
    (∀ (n : ℕ) (l : List VersionInfo), retain n (retain n l) = retain n l) ∧
    (∀ (n : ℕ) (l : List VersionInfo) (v : VersionInfo),
      v ∈ (l.filter fun w => w.committed).take n → v ∈ retain n l) := by
  constructor
  · intro n l
    induction l generalizing n with
    | nil => simp [retain]
    | cons v rest ih =>
        by_cases hc : v.committed = true
        · cases n with
          | zero =>
              by_cases hu : v.inUse = true
              · simp [retain, hc, hu, ih 0]
              · simp only [Bool.not_eq_true] at hu
                simp [retain, hc, hu, ih 0]
          | succ m =>
              simp [retain, hc, ih m]
        · have hc' : v.committed = false := by simpa using hc
          by_cases hu : v.inUse = true
          · simp [retain, hc', hu, ih n]
          · simp only [Bool.not_eq_true] at hu
            simp [retain, hc', hu, ih n]
  · intro n l
    induction l generalizing n with
    | nil => intro v hv; simp at hv
    | cons x rest ih =>
        intro v hv
        by_cases hc : x.committed = true
        · rw [List.filter_cons_of_pos hc] at hv
          cases n with
          | zero => simp at hv
          | succ m =>
              rw [List.take_succ_cons] at hv
              rcases List.mem_cons.mp hv with hv | hv
              · subst hv
                simp [retain, hc]
              · have hrec := ih m v hv
                simp [retain, hc, hrec]
        · have hc' : x.committed = false := by simpa using hc
          rw [List.filter_cons_of_neg (by simp [hc'])] at hv
          have hrec := ih n v hv
          by_cases hu : x.inUse = true
          · simp [retain, hc', hu, hrec]
          · simp only [Bool.not_eq_true] at hu
            simp [retain, hc', hu, hrec]

theorem C7_retain_idempotent_witness :
    retain 2 (retain 2
      [⟨50, true, false⟩, ⟨40, false, true⟩, ⟨30, true, false⟩,
       ⟨20, true, true⟩, ⟨10, true, false⟩]) =
    retain 2
      [⟨50, true, false⟩, ⟨40, false, true⟩, ⟨30, true, false⟩,
       ⟨20, true, true⟩, ⟨10, true, false⟩] ∧
    (⟨30, true, false⟩ : VersionInfo) ∈ retain 2
      [⟨50, true, false⟩, ⟨40, false, true⟩, ⟨30, true, false⟩,
       ⟨20, true, true⟩, ⟨10, true, false⟩] :=
  ⟨C7_retain_idempotent.1 2
      [⟨50, true, false⟩, ⟨40, false, true⟩, ⟨30, true, false⟩,
       ⟨20, true, true⟩, ⟨10, true, false⟩],
    C7_retain_idempotent.2 2
      [⟨50, true, false⟩, ⟨40, false, true⟩, ⟨30, true, false⟩,
       ⟨20, true, true⟩, ⟨10, true, false⟩]
      ⟨30, true, false⟩ (by decide)⟩

/-! ## Bundle read-handle lifecycle -/

/-- The resources a bundle read handle owns, per the Windows file-locking
fix: the asset finder's engine and the adjustment reader's connection,
each tracked as open or closed. -/
structure BundleData where
  assetFinderOpen : Bool
  adjReaderOpen : Bool
deriving DecidableEq

/-- Modelled from the spec: `BundleData.close` disposes the asset finder
and the adjustment reader; it is safe to call on an already-closed handle
and never raises (`WINDOWS_FILE_LOCKING_FIX.md`; spec section 4.7); the
implementation itself is not present under the source tree. -/
def BundleData.close (_ : BundleData) : BundleData := ⟨false, false⟩

/-- C8: releasing a bundle read handle any positive number of times —
including on a handle whose resources are already closed — is equivalent
to releasing it once; the first release closes both underlying resources
and subsequent releases leave the state unchanged. -/
theorem C8_close_idempotent :
    (∀ (b : BundleData) (n : ℕ), 1 ≤ n →
      BundleData.close^[n] b = BundleData.close b) ∧
    (∀ b : BundleData, (BundleData.close b).assetFinderOpen = false ∧
      (BundleData.close b).adjReaderOpen = false) ∧
    (∀ b : BundleData,
      BundleData.close (BundleData.close b) = BundleData.close b) := by
  refine ⟨?_, fun b => ⟨rfl, rfl⟩, fun b => rfl⟩
  intro b n hn
  induction n with
  | zero => omega
  | succ m ih =>
      cases Nat.eq_or_lt_of_le hn with
      | inl h =>
          have hm : m = 0 := by omega
          subst hm
          rfl
      | inr h =>
          have hm : 1 ≤ m := by omega
          rw [Function.iterate_succ_apply', ih hm]
          rfl

theorem C8_close_idempotent_witness :
    BundleData.close^[3] ⟨true, true⟩ = BundleData.close ⟨true, true⟩ ∧
    BundleData.close^[2] ⟨false, false⟩ = BundleData.close ⟨false, false⟩ :=
  ⟨C8_close_idempotent.1 ⟨true, true⟩ 3 (by decide),
    C8_close_idempotent.1 ⟨false, false⟩ 2 (by decide)⟩
